import Mathlib

/-!
Verification of the notebook "103 - Before and After MMLSpark".

The notebook loads a TSV of (rating, text) Amazon book reviews, derives a
word-count and a mean-word-length column via Python UDFs, derives a boolean
label `rating > 3`, featurizes the text (tokenize, hash, assemble), trains
logistic-regression models over the hyperparameter sweep [0.05, 0.1, 0.2, 0.4],
picks the best model by test AUC, saves it and prints its validation AUC.

The notebook's own logic is embedded below.  Calls into the external ML
library (model fitting, AUC evaluation, the token hash function) have no
source here and are abstracted as function parameters; Python floats are
modelled by exact rationals, and Python values that are not numbers
(`np.mean([])` is NaN, `max([])` and `list.index` on a missing element raise)
are modelled by `Option`/`none`.
-/

set_option autoImplicit false

/-- Python `str.split()` with no separator, on a list of characters:
splits on runs of whitespace, dropping leading and trailing whitespace.
`acc` holds the (reversed) characters of the word currently being read. -/
def pySplitAux : List Char → List Char → List (List Char)
  | [], acc => if acc.isEmpty then [] else [acc.reverse]
  | c :: rest, acc =>
    if c.isWhitespace then
      if acc.isEmpty then pySplitAux rest [] else acc.reverse :: pySplitAux rest []
    else pySplitAux rest (c :: acc)

/-- Python `s.split()`: the list of maximal whitespace-free chunks of `s`. -/
def pySplit (l : List Char) : List (List Char) := pySplitAux l []

/-- Notebook UDF `word_count(s) = len(s.split())`. -/
def word_count (s : String) : Nat := (pySplit s.data).length

/-- Round a rational to the nearest integer, ties to the even integer
(Python 3 `round` semantics).  `f` is the floor of `q` and `r / d` its
fractional part, so `q` rounds down when `2r < d`, up when `2r > d`, and to
the even neighbour on a tie. -/
def roundHalfEven (q : ℚ) : ℤ :=
  let n : ℤ := q.num
  let d : ℤ := (q.den : ℤ)
  let f : ℤ := Int.fdiv n d
  let r : ℤ := n - f * d
  if 2 * r < d then f
  else if d < 2 * r then f + 1
  else if f % 2 = 0 then f else f + 1

/-- Python `round(x, 2)`: round to two decimal places, modelled exactly
on rationals. -/
def pyRound2 (q : ℚ) : ℚ := (roundHalfEven (q * 100) : ℚ) / 100

/-- Notebook UDF `word_length(s) = round(float(np.mean([len(w) for w in
s.split()])), 2)`.  `np.mean` of the empty list is NaN, modelled as `none`. -/
def word_length (s : String) : Option ℚ :=
  let ss : List ℚ := (pySplit s.data).map (fun w => (w.length : ℚ))
  if ss.isEmpty then none else some (pyRound2 (ss.sum / (ss.length : ℚ)))

/-- A row of the raw dataset: schema `(rating : Integer, text : String)`. -/
structure RawRow where
  rating : ℤ
  text : String

/-- A row of the derived dataset `data`: the `select`/`withColumn`/`drop`
cell keeps `text`, adds `wordCount`, `wordLength` and `label`, drops
`rating`. -/
structure DataRow where
  text : String
  wordCount : Nat
  wordLength : Option ℚ
  label : Bool

/-- The notebook's derivation of `data` from `raw_data`:
`wordCount = word_count(text)`, `wordLength = word_length(text)`,
`label = (rating > 3)`. -/
def deriveRow (r : RawRow) : DataRow :=
  { text := r.text
    wordCount := word_count r.text
    wordLength := word_length r.text
    label := r.rating > 3 }

/-- Spec-side count of the maximal whitespace-separated words of a character
list: scan left to right, counting the positions where a non-whitespace
character starts a new run.  `inWord` records whether the previous character
was part of a word. -/
def countRuns : List Char → Bool → Nat
  | [], _ => 0
  | c :: rest, inWord =>
    if c.isWhitespace then countRuns rest false
    else if inWord then countRuns rest true else countRuns rest true + 1

/-- Arithmetic mean of a list of rationals. -/
def arithMean (l : List ℚ) : ℚ := l.sum / (l.length : ℚ)

/-- Name of the local data file the notebook reads. -/
def dataFile : String := "BookReviewsFromAmazon10K.tsv"

/-- URL the notebook downloads the data file from. -/
def dataUrl : String := "https://mmlspark.azureedge.net/datasets/" ++ dataFile

/-- Result of the data-acquisition cell: whether a download happened, which
URL was fetched (if any), and which local file was then read. -/
structure FetchResult where
  downloaded : Bool
  fetchedUrl : Option String
  readFile : String

/-- The notebook's download guard: `if not os.path.isfile(dataFile):
urllib.request.urlretrieve(url, dataFile)` followed by `pd.read_csv(dataFile)`.
`isfile` abstracts the state of the local filesystem. -/
def acquireData (isfile : String → Bool) : FetchResult :=
  if isfile dataFile then
    { downloaded := false, fetchedUrl := none, readFile := dataFile }
  else
    { downloaded := true, fetchedUrl := some dataUrl, readFile := dataFile }

/-- Spark `Tokenizer`: lowercase the text and split it on whitespace. -/
def sparkTokenize (s : String) : List (List Char) := pySplit s.toLower.data

/-- The notebook's `numFeatures = 10000`. -/
def numFeatures : Nat := 10000

/-- Spark `HashingTF` with `numFeatures = n`: the term-frequency vector whose
entry `i` counts the tokens hashing to bucket `i`.  The hash function `h` is
the external library's and is abstracted. -/
def hashingTF (n : Nat) (h : List Char → Nat) (tokens : List (List Char)) :
    List ℚ :=
  (List.range n).map (fun i => ((tokens.filter (fun t => h t % n = i)).length : ℚ))

/-- The notebook's `feature_columns_array`, the input columns of the
`VectorAssembler` in order. -/
def feature_columns_array : List String := ["TextFeatures", "wordCount", "wordLength"]

/-- Spark `VectorAssembler`: concatenate, in the order of `inputCols`, the
values of the named columns of a row (`row c` is column `c` of the row as a
vector; a numeric column is a one-element vector). -/
def vectorAssembler (inputCols : List String) (row : String → List ℚ) : List ℚ :=
  (inputCols.map row).flatten

/-- The pyspark featurization of one row: tokenize the text, hash the tokens
into `TextFeatures`, then assemble `feature_columns_array` into `features`.
`wc` and `wl` are the row's `wordCount` and `wordLength` column values. -/
def pysparkFeaturizeRow (h : List Char → Nat) (text : String) (wc wl : ℚ) :
    List ℚ :=
  vectorAssembler feature_columns_array (fun c =>
    if c = "TextFeatures" then hashingTF numFeatures h (sparkTokenize text)
    else if c = "wordCount" then [wc]
    else if c = "wordLength" then [wl]
    else [])

/-- Python `max(l)` for a list of rationals: `none` on the empty list
(Python raises `ValueError`), otherwise the maximum value. -/
def pyMax : List ℚ → Option ℚ
  | [] => none
  | x :: xs =>
    match pyMax xs with
    | none => some x
    | some m => some (if x < m then m else x)

/-- Python `l.index(x)`: the first index of `x` in `l`, `none` if absent
(Python raises `ValueError`). -/
def pyIndex : List ℚ → ℚ → Option Nat
  | [], _ => none
  | y :: ys, x => if y = x then some 0 else (pyIndex ys x).map (fun i => i + 1)

/-- The notebook's `best_metric = max(metrics)`. -/
def best_metric (metrics : List ℚ) : Option ℚ := pyMax metrics

/-- The notebook's `best_model = models[metrics.index(best_metric)]`. -/
def best_model {M : Type} (models : List M) (metrics : List ℚ) : Option M :=
  match best_metric metrics with
  | none => none
  | some bm =>
    match pyIndex metrics bm with
    | none => none
    | some i => models[i]?

/-- The notebook's `lrHyperParams = [0.05, 0.1, 0.2, 0.4]`. -/
def lrHyperParams : List ℚ := [5 / 100, 1 / 10, 2 / 10, 4 / 10]

/-- What a code path of the notebook outputs: the model it saves (with
`overwrite` mode) and the list of scalars it prints. -/
structure PathOutput (M : Type) where
  savedModel : M
  overwrite : Bool
  printed : List ℚ

/-- The pyspark path, after featurization and the train/test/validation
split: train one model per hyperparameter (`fit`), score each on `test`
(`aucTest`), pick `best_model`, save it with overwrite, and print its AUC on
`validation` (`aucVal`).  `fit`, `aucTest` and `aucVal` abstract the external
library's `LogisticRegression(...).fit(train)` and
`evaluator.evaluate(model.transform(...))`. -/
def pysparkPath {M : Type} (fit : ℚ → M) (aucTest aucVal : M → ℚ) :
    Option (PathOutput M) :=
  let models := lrHyperParams.map fit
  let metrics := models.map aucTest
  match best_model models metrics with
  | none => none
  | some best => some { savedModel := best, overwrite := true, printed := [aucVal best] }

/-- Modelled from the spec: the `FindBestModel` estimator of the mmlspark
library (its implementation is not under src/) "finds the best model from a
pool of trained models by finding the model which performs best on the test
dataset given the specified metric", here AUC.  `auc` abstracts evaluating a
model on the `test` dataset. -/
def findBestModel {M : Type} (auc : M → ℚ) (models : List M) : Option M :=
  best_model models (models.map auc)

/-- The mmlspark path: train one `TrainClassifier` model per hyperparameter
(`trainFit`, abstracting `TrainClassifier(model=lrm, ...).fit(train)`), pick
the best by AUC on `test` via `FindBestModel`, save it with overwrite, and
print the AUC that `ComputeModelStatistics` reports on `validation`
(`aucVal`). -/
def mmlsparkPath {M : Type} (trainFit : ℚ → M) (aucTest aucVal : M → ℚ) :
    Option (PathOutput M) :=
  let lrmodels := lrHyperParams.map trainFit
  match findBestModel aucTest lrmodels with
  | none => none
  | some best => some { savedModel := best, overwrite := true, printed := [aucVal best] }

/-! Helper lemmas. -/

theorem pySplitAux_length (l : List Char) :
    ∀ acc : List Char,
      (pySplitAux l acc).length =
        countRuns l (!acc.isEmpty) + (if acc.isEmpty then 0 else 1) := by
  induction l with
  | nil =>
    intro acc
    cases acc <;> simp [pySplitAux, countRuns]
  | cons c rest ih =>
    intro acc
    by_cases hc : c.isWhitespace
    · cases acc <;> simp [pySplitAux, countRuns, hc, ih]
    · cases acc <;> simp [pySplitAux, countRuns, hc, ih]

theorem pyMax_mem : ∀ {l : List ℚ} {m : ℚ}, pyMax l = some m → m ∈ l := by
  intro l
  induction l with
  | nil => intro m h; simp [pyMax] at h
  | cons x xs ih =>
    intro m h
    rw [pyMax] at h
    cases hxs : pyMax xs with
    | none => rw [hxs] at h; simp at h; simp [h]
    | some m0 =>
      rw [hxs] at h
      simp at h
      by_cases hlt : x < m0
      · rw [if_pos hlt] at h
        subst h
        exact List.mem_cons_of_mem x (ih hxs)
      · rw [if_neg hlt] at h
        simp [h]

theorem pyMax_le : ∀ {l : List ℚ} {m : ℚ}, pyMax l = some m → ∀ x ∈ l, x ≤ m := by
  intro l
  induction l with
  | nil => intro m h; simp [pyMax] at h
  | cons x xs ih =>
    intro m h y hy
    rw [pyMax] at h
    cases hxs : pyMax xs with
    | none =>
      rw [hxs] at h
      simp at h
      subst h
      cases xs with
      | nil =>
        simp at hy
        exact le_of_eq hy
      | cons a as =>
        rw [pyMax] at hxs
        split at hxs <;> simp at hxs
    | some m0 =>
      rw [hxs] at h
      simp at h
      rcases List.mem_cons.mp hy with hyx | hyxs
      · subst hyx
        by_cases hlt : y < m0
        · rw [if_pos hlt] at h; subst h; exact le_of_lt hlt
        · rw [if_neg hlt] at h; subst h; exact le_refl y
      · have hle : y ≤ m0 := ih hxs y hyxs
        by_cases hlt : x < m0
        · rw [if_pos hlt] at h; subst h; exact hle
        · rw [if_neg hlt] at h; subst h; exact le_trans hle (le_of_not_lt hlt)

theorem pyMax_cons_isSome (x : ℚ) (xs : List ℚ) : ∃ m, pyMax (x :: xs) = some m := by
  rw [pyMax]
  cases pyMax xs with
  | none => exact ⟨x, rfl⟩
  | some m0 => exact ⟨if x < m0 then m0 else x, rfl⟩

theorem pyIndex_spec :
    ∀ {l : List ℚ} {x : ℚ}, x ∈ l →
      ∃ i, pyIndex l x = some i ∧ l[i]? = some x ∧
        ∀ j, j < i → l[j]? ≠ some x := by
  intro l
  induction l with
  | nil => intro x h; simp at h
  | cons y ys ih =>
    intro x hx
    by_cases hyx : y = x
    · refine ⟨0, ?_, ?_, ?_⟩
      · simp [pyIndex, hyx]
      · simp [hyx]
      · intro j hj; omega
    · have hxys : x ∈ ys := by
        rcases List.mem_cons.mp hx with h | h
        · exact absurd h.symm hyx
        · exact h
      obtain ⟨i0, hidx, hget, hfirst⟩ := ih hxys
      refine ⟨i0 + 1, ?_, ?_, ?_⟩
      · simp [pyIndex, hyx, hidx]
      · simpa using hget
      · intro j hj
        cases j with
        | zero => simpa using hyx
        | succ j0 =>
          have : j0 < i0 := by omega
          simpa using hfirst j0 this

theorem best_model_spec {M : Type} (auc : M → ℚ) (models : List M)
    (h : models ≠ []) :
    ∃ (i : Nat) (best : M) (bm : ℚ),
      best_metric (models.map auc) = some bm ∧
      best_model models (models.map auc) = some best ∧
      models[i]? = some best ∧ auc best = bm ∧
      (∀ x ∈ models, auc x ≤ bm) ∧
      (∀ j : Nat, j < i → ∀ mj, models[j]? = some mj → auc mj ≠ bm) := by
  obtain ⟨x, xs, rfl⟩ := List.exists_cons_of_ne_nil h
  obtain ⟨bm, hbm⟩ := pyMax_cons_isSome (auc x) (xs.map auc)
  have hbm' : pyMax ((x :: xs).map auc) = some bm := by simpa using hbm
  have hmem : bm ∈ (x :: xs).map auc := pyMax_mem hbm'
  obtain ⟨i, hidx, hget, hfirst⟩ := pyIndex_spec hmem
  have hgetm : ∃ best, (x :: xs)[i]? = some best ∧ auc best = bm := by
    rw [List.getElem?_map] at hget
    cases hb : (x :: xs)[i]? with
    | none => rw [hb] at hget; simp at hget
    | some b =>
      rw [hb] at hget
      simp at hget
      exact ⟨b, rfl, hget⟩
  obtain ⟨best, hbest, haucbest⟩ := hgetm
  refine ⟨i, best, bm, ?_, ?_, hbest, haucbest, ?_, ?_⟩
  · simpa [best_metric] using hbm'
  · simp only [best_model, best_metric, hbm', hidx, hbest]
  · intro z hz
    exact pyMax_le hbm' (auc z) (List.mem_map_of_mem auc hz)
  · intro j hj mj hmj hcontra
    have : ((x :: xs).map auc)[j]? = some bm := by
      rw [List.getElem?_map, hmj]
      simp [hcontra]
    exact hfirst j hj this

theorem pySplit_all_whitespace :
    ∀ l : List Char, l.all Char.isWhitespace = true → pySplit l = [] := by
  intro l
  induction l with
  | nil => intro _; rfl
  | cons c rest ih =>
    intro h
    simp only [List.all_cons, Bool.and_eq_true] at h
    rw [pySplit, pySplitAux]
    simp only [h.1, if_true, List.isEmpty_nil]
    exact ih h.2

/-! Claim theorems. -/

/-- C1: for every row of the raw dataset, the derived label column is true
if and only if the row's integer rating is strictly greater than 3. -/
theorem C1_label_iff_rating_gt_three (r : RawRow) :
    (deriveRow r).label = true ↔ 3 < r.rating := by
  simp [deriveRow]

/-- C3: for every row, the assembled `features` vector equals the
hashed-token vector of the tokenized text concatenated with the two numeric
features, in the order [hashed text features, wordCount, wordLength]. -/
theorem C3_features_assembly_order (h : List Char → Nat) (text : String)
    (wc wl : ℚ) :
    pysparkFeaturizeRow h text wc wl =
      hashingTF numFeatures h (sparkTokenize text) ++ [wc, wl] := by
  simp [pysparkFeaturizeRow, vectorAssembler, feature_columns_array]

/-- C5: the remote data file is downloaded exactly when no file with the
expected name exists locally; when the file is present no fetch occurs, and
in every case the local file that is read is `dataFile`. -/
theorem C5_download_guard (isfile : String → Bool) :
    (acquireData isfile).downloaded = !(isfile dataFile) ∧
    (acquireData isfile).fetchedUrl.isSome = !(isfile dataFile) ∧
    (acquireData isfile).readFile = dataFile := by
  cases hf : isfile dataFile <;> simp [acquireData, hf]

/-- C7: for every review text, `word_count` equals the number of maximal
whitespace-separated words of the text. -/
theorem C7_word_count_counts_maximal_words (s : String) :
    word_count s = countRuns s.data false := by
  simpa [word_count, pySplit] using pySplitAux_length s.data []

/-- C8: for every review text with at least one whitespace-separated word,
`word_length` is the arithmetic mean of the word lengths rounded to two
decimal places. -/
theorem C8_word_length_is_rounded_mean (s : String) (h : 0 < word_count s) :
    word_length s =
      some (pyRound2 (arithMean
        ((pySplit s.data).map (fun w => (w.length : ℚ))))) := by
  rcases hsp : pySplit s.data with _ | ⟨w, ws⟩
  · rw [word_count, hsp] at h
    simp at h
  · simp [word_length, arithMean, hsp]

theorem C8_witness :
    0 < word_count "ab cde" ∧
      word_length "ab cde" =
        some (pyRound2 (arithMean
          ((pySplit ("ab cde").data).map (fun w => (w.length : ℚ))))) :=
  ⟨by decide, C8_word_length_is_rounded_mean "ab cde" (by decide)⟩

/-- C2: the pyspark path selects a trained model whose test AUC is the
maximum over the test AUCs of all trained models (`best_metric` of the
metrics list is its AUC, and no model beats it); that very model is the one
saved (with overwrite) and whose validation AUC is printed. -/
theorem C2_pyspark_selects_max_auc_model {M : Type} (fit : ℚ → M)
    (aucTest aucVal : M → ℚ) :
    ∃ out : PathOutput M,
      pysparkPath fit aucTest aucVal = some out ∧
      out.savedModel ∈ lrHyperParams.map fit ∧
      best_metric ((lrHyperParams.map fit).map aucTest) =
        some (aucTest out.savedModel) ∧
      (∀ m ∈ lrHyperParams.map fit, aucTest m ≤ aucTest out.savedModel) ∧
      out.printed = [aucVal out.savedModel] ∧
      out.overwrite = true := by
  have hne : lrHyperParams.map fit ≠ [] := by simp [lrHyperParams]
  obtain ⟨i, best, bm, h1, h2, h3, h4, h5, _⟩ :=
    best_model_spec aucTest (lrHyperParams.map fit) hne
  refine ⟨{ savedModel := best, overwrite := true, printed := [aucVal best] },
    ?_, ?_, ?_, ?_, rfl, rfl⟩
  · simp only [pysparkPath, h2]
  · exact List.getElem?_mem h3
  · rw [h4]
    exact h1
  · intro m hm
    rw [h4]
    exact h5 m hm

/-- C9: best-model selection is deterministic given the per-model test
metrics: the selected model sits at the first index attaining the maximal
metric, every model's metric is bounded by it, and every strictly earlier
model has a strictly smaller (hence different) metric. -/
theorem C9_first_maximizer_selected {M : Type} (auc : M → ℚ)
    (models : List M) (h : models ≠ []) :
    ∃ (i : Nat) (best : M) (bm : ℚ),
      best_metric (models.map auc) = some bm ∧
      best_model models (models.map auc) = some best ∧
      models[i]? = some best ∧ auc best = bm ∧
      (∀ x ∈ models, auc x ≤ bm) ∧
      (∀ j : Nat, j < i → ∀ mj, models[j]? = some mj → auc mj ≠ bm) :=
  best_model_spec auc models h

theorem C9_witness :
    ([(1 : ℚ), 3, 3, 2] ≠ []) ∧
      (∃ (i : Nat) (best : ℚ) (bm : ℚ),
        best_metric ([(1 : ℚ), 3, 3, 2].map id) = some bm ∧
        best_model [(1 : ℚ), 3, 3, 2] ([(1 : ℚ), 3, 3, 2].map id) = some best ∧
        [(1 : ℚ), 3, 3, 2][i]? = some best ∧ id best = bm ∧
        (∀ x ∈ [(1 : ℚ), 3, 3, 2], id x ≤ bm) ∧
        (∀ j : Nat, j < i → ∀ mj, [(1 : ℚ), 3, 3, 2][j]? = some mj →
          id mj ≠ bm)) :=
  ⟨by decide, C9_first_maximizer_selected id [1, 3, 3, 2] (by decide)⟩

/-- C6: each code path outputs exactly a persisted model artifact (the
selected best model, saved with overwrite) and a single printed scalar, the
AUC of that model on the validation split. -/
theorem C6_outputs_model_and_auc {M N : Type} (fit : ℚ → M)
    (aucTest aucVal : M → ℚ) (trainFit : ℚ → N) (aucTest2 aucVal2 : N → ℚ) :
    ∃ (o1 : PathOutput M) (o2 : PathOutput N),
      pysparkPath fit aucTest aucVal = some o1 ∧
      mmlsparkPath trainFit aucTest2 aucVal2 = some o2 ∧
      best_model (lrHyperParams.map fit) ((lrHyperParams.map fit).map aucTest) =
        some o1.savedModel ∧
      o1.overwrite = true ∧ o1.printed = [aucVal o1.savedModel] ∧
      findBestModel aucTest2 (lrHyperParams.map trainFit) = some o2.savedModel ∧
      o2.overwrite = true ∧ o2.printed = [aucVal2 o2.savedModel] := by
  have hne1 : lrHyperParams.map fit ≠ [] := by simp [lrHyperParams]
  have hne2 : lrHyperParams.map trainFit ≠ [] := by simp [lrHyperParams]
  obtain ⟨_, best1, _, _, hb1, _, _, _, _⟩ :=
    best_model_spec aucTest (lrHyperParams.map fit) hne1
  obtain ⟨_, best2, _, _, hb2, _, _, _, _⟩ :=
    best_model_spec aucTest2 (lrHyperParams.map trainFit) hne2
  refine ⟨{ savedModel := best1, overwrite := true, printed := [aucVal best1] },
    { savedModel := best2, overwrite := true, printed := [aucVal2 best2] },
    ?_, ?_, hb1, rfl, rfl, ?_, rfl, rfl⟩
  · simp only [pysparkPath, hb1]
  · simp only [mmlsparkPath, findBestModel, hb2]
  · simp only [findBestModel, hb2]

/-- C10: a review text that is empty or whitespace-only has no
whitespace-separated words, so `word_count` is 0 and `word_length` (the mean
of an empty list, NaN in the source) has no well-defined numeric value:
feature derivation is not total over all string inputs. -/
theorem C10_whitespace_only_not_total (s : String)
    (h : s.data.all Char.isWhitespace = true) :
    word_count s = 0 ∧ word_length s = none := by
  have hsplit : pySplit s.data = [] := pySplit_all_whitespace s.data h
  constructor
  · simp [word_count, hsplit]
  · simp [word_length, hsplit]

theorem C10_witness :
    (" \t ".data.all Char.isWhitespace = true) ∧
      (word_count " \t " = 0 ∧ word_length " \t " = none) :=
  ⟨by decide, C10_whitespace_only_not_total " \t " (by decide)⟩
